import Mathlib

/-!
Verification of the goether wallet/contract library core: transaction
option resolution and fee helpers (wallet.go), signature recovery,
EIP-712 hashing and ABI decode paths (contract.go), and message signing
(signer.go), as a shallow embedding in Lean.

Go pointer-typed record fields (`*int`, `*big.Int`) are embedded as
`Option Int`; Go `error` returns become `Except Err`; byte slices
become `List Nat`.  External collaborators (the RPC client and the
go-ethereum crypto/ABI primitives) are abstracted as explicit
parameters, and the theorems quantify over their behaviour.
-/

namespace Goether

/-- Go `error` values, modelled by their message string. -/
abbrev Err := String

/-- Go `[]byte`, modelled as a list of byte values. -/
abbrev Bytes := List Nat

/-- `TxOpts` from wallet.go: each pointer field becomes an `Option`. -/
structure TxOpts where
  Nonce     : Option Int := none
  GasLimit  : Option Int := none
  GasPrice  : Option Int := none
  GasTipCap : Option Int := none
  GasFeeCap : Option Int := none
deriving Repr, DecidableEq

/-- `TxOpts.GetOldFee` from wallet.go: if `GasPrice` and `GasLimit` are
both non-nil, return `GasPrice * GasLimit`, else the missing-parameter
error. -/
def TxOpts.GetOldFee (t : TxOpts) : Except Err Int :=
  match t.GasPrice, t.GasLimit with
  | some price, some limit => .ok (price * limit)
  | _, _ => .error "未设置基础参数"

/-- `TxOpts.GetNewFee` from wallet.go: if `GasTipCap`, `GasFeeCap` and
`GasLimit` are all non-nil, return `(GasTipCap*2 + GasFeeCap) * GasLimit`
(the source computes `Add(Mul(GasTipCap, 2), GasFeeCap)` then multiplies
by the gas limit), else the missing-parameter error. -/
def TxOpts.GetNewFee (t : TxOpts) : Except Err Int :=
  match t.GasTipCap, t.GasFeeCap, t.GasLimit with
  | some tip, some fee, some limit => .ok ((tip * 2 + fee) * limit)
  | _, _, _ => .error "未设置基础参数"

/-- The view the wallet has of the RPC collaborator, exactly the three calls
`InitTxOpts` (wallet.go) can make: `GetPendingNonce`
(`EthGetTransactionCount(addr, "pending")`), `EthEstimateGas` (a
function of the call intent), and `EthGasPrice`.  Each behaviour is an
arbitrary success or failure. -/
structure Wallet where
  address      : Nat
  pendingNonce : Except Err Int
  estimateGas  : Nat → Option Int → Bytes → Except Err Int
  gasPrice     : Except Err Int

/-- The `opts.Nonce == nil` block of `InitTxOpts` (wallet.go). -/
def fillNonce (w : Wallet) (opts : TxOpts) : Except Err TxOpts :=
  match opts.Nonce with
  | some _ => .ok opts
  | none =>
    match w.pendingNonce with
    | .ok nonce => .ok { opts with Nonce := some nonce }
    | .error e  => .error e

/-- The `opts.GasLimit == nil` block of `InitTxOpts` (wallet.go): the
estimate request carries the wallet address, recipient, amount and
call data. -/
def fillGasLimit (w : Wallet) (toAddr : Nat) (amount : Option Int) (data : Bytes)
    (opts : TxOpts) : Except Err TxOpts :=
  match opts.GasLimit with
  | some _ => .ok opts
  | none =>
    match w.estimateGas toAddr amount data with
    | .ok gasLimit => .ok { opts with GasLimit := some gasLimit }
    | .error e     => .error e

/-- The `opts.GasPrice == nil` block of `InitTxOpts` (wallet.go). -/
def fillGasPrice (w : Wallet) (opts : TxOpts) : Except Err TxOpts :=
  match opts.GasPrice with
  | some _ => .ok opts
  | none =>
    match w.gasPrice with
    | .ok gasPrice => .ok { opts with GasPrice := some gasPrice }
    | .error e     => .error e

/-- The final `opts.GasTipCap == nil || opts.GasFeeCap == nil` block of
`InitTxOpts` (wallet.go): when either cap is nil, BOTH are assigned the
(by now resolved) `GasPrice`. -/
def fillTipFee (opts : TxOpts) : TxOpts :=
  if opts.GasTipCap.isNone || opts.GasFeeCap.isNone then
    { opts with GasTipCap := opts.GasPrice, GasFeeCap := opts.GasPrice }
  else opts

/-- `Wallet.InitTxOpts` from wallet.go: a nil `opts` is replaced by the
empty record, then the four blocks run in source order; any RPC failure
aborts with that error. -/
def InitTxOpts (w : Wallet) (toAddr : Nat) (amount : Option Int) (data : Bytes)
    (opts0 : Option TxOpts) : Except Err TxOpts :=
  match fillNonce w (opts0.getD {}) with
  | .error e => .error e
  | .ok opts1 =>
    match fillGasLimit w toAddr amount data opts1 with
    | .error e => .error e
    | .ok opts2 =>
      match fillGasPrice w opts2 with
      | .error e => .error e
      | .ok opts3 => .ok (fillTipFee opts3)

/-- C4: `GetOldFee` returns exactly `GasPrice * GasLimit` when both are
set and the missing-parameter error when either is unset; at
`GasPrice = 20e9`, `GasLimit = 21000` the fee is exactly
420,000,000,000,000. -/
theorem GetOldFee_spec (t : TxOpts) :
    (∀ price limit, t.GasPrice = some price → t.GasLimit = some limit →
      t.GetOldFee = .ok (price * limit)) ∧
    (t.GasPrice = none ∨ t.GasLimit = none →
      t.GetOldFee = .error "未设置基础参数") ∧
    ({ GasPrice := some 20000000000, GasLimit := some 21000 } : TxOpts).GetOldFee
      = .ok 420000000000000 := by
  refine ⟨?_, ?_, by rfl⟩
  · intro price limit h1 h2
    simp [TxOpts.GetOldFee, h1, h2]
  · intro h
    rcases t with ⟨n, gl, gp, tc, fc⟩
    rcases h with h | h <;> simp_all <;>
      cases gl <;> cases gp <;> simp_all [TxOpts.GetOldFee]

/-- C4 witness: the theorem applied at concrete inputs, discharging the
set-field and unset-field hypotheses. -/
theorem GetOldFee_spec_witness :
    ({ GasPrice := some 6, GasLimit := some 7 } : TxOpts).GetOldFee = .ok 42 ∧
    ({ GasPrice := none, GasLimit := some 7 } : TxOpts).GetOldFee
      = .error "未设置基础参数" := by
  constructor
  · have h := (GetOldFee_spec { GasPrice := some 6, GasLimit := some 7 }).1 6 7 rfl rfl
    simpa using h
  · exact (GetOldFee_spec { GasPrice := none, GasLimit := some 7 }).2.1 (Or.inl rfl)

/-- C3: `GetNewFee` returns exactly `(2*GasTipCap + GasFeeCap) * GasLimit`
when all three are set, and the missing-parameter error when any is
unset. -/
theorem GetNewFee_spec (t : TxOpts) :
    (∀ tip fee limit, t.GasTipCap = some tip → t.GasFeeCap = some fee →
      t.GasLimit = some limit → t.GetNewFee = .ok ((2 * tip + fee) * limit)) ∧
    (t.GasTipCap = none ∨ t.GasFeeCap = none ∨ t.GasLimit = none →
      t.GetNewFee = .error "未设置基础参数") := by
  constructor
  · intro tip fee limit h1 h2 h3
    unfold TxOpts.GetNewFee
    rw [h1, h2, h3]
    ring_nf
  · intro h
    rcases t with ⟨n, gl, gp, tc, fc⟩
    rcases h with h | h | h <;> simp_all <;>
      cases gl <;> cases tc <;> cases fc <;> simp_all [TxOpts.GetNewFee]

/-- C3 witness: the theorem applied at concrete inputs, discharging the
set-field and unset-field hypotheses. -/
theorem GetNewFee_spec_witness :
    ({ GasTipCap := some 3, GasFeeCap := some 4, GasLimit := some 10 } : TxOpts).GetNewFee
      = .ok 100 ∧
    ({ GasTipCap := none, GasFeeCap := some 4, GasLimit := some 10 } : TxOpts).GetNewFee
      = .error "未设置基础参数" := by
  constructor
  · have h := (GetNewFee_spec
      { GasTipCap := some 3, GasFeeCap := some 4, GasLimit := some 10 }).1 3 4 10 rfl rfl rfl
    simpa using h
  · exact (GetNewFee_spec
      { GasTipCap := none, GasFeeCap := some 4, GasLimit := some 10 }).2 (Or.inl rfl)

theorem fillNonce_ok (w : Wallet) (o r : TxOpts) (h : fillNonce w o = .ok r) :
    r.GasLimit = o.GasLimit ∧ r.GasPrice = o.GasPrice ∧
    r.GasTipCap = o.GasTipCap ∧ r.GasFeeCap = o.GasFeeCap ∧
    (o.Nonce.isSome → r.Nonce = o.Nonce) := by
  unfold fillNonce at h
  cases hn : o.Nonce <;> rw [hn] at h
  · cases hp : w.pendingNonce <;> rw [hp] at h <;> simp_all
    exact ⟨by simp [← h], by simp [← h], by simp [← h], by simp [← h]⟩
  · simp_all

theorem fillGasLimit_ok (w : Wallet) (toAddr : Nat) (amount : Option Int)
    (data : Bytes) (o r : TxOpts) (h : fillGasLimit w toAddr amount data o = .ok r) :
    r.Nonce = o.Nonce ∧ r.GasPrice = o.GasPrice ∧
    r.GasTipCap = o.GasTipCap ∧ r.GasFeeCap = o.GasFeeCap ∧
    (o.GasLimit.isSome → r.GasLimit = o.GasLimit) := by
  unfold fillGasLimit at h
  cases hn : o.GasLimit <;> rw [hn] at h
  · cases hp : w.estimateGas toAddr amount data <;> rw [hp] at h <;> simp_all
    exact ⟨by simp [← h], by simp [← h], by simp [← h], by simp [← h]⟩
  · simp_all

theorem fillGasPrice_ok (w : Wallet) (o r : TxOpts) (h : fillGasPrice w o = .ok r) :
    r.Nonce = o.Nonce ∧ r.GasLimit = o.GasLimit ∧
    r.GasTipCap = o.GasTipCap ∧ r.GasFeeCap = o.GasFeeCap ∧
    (o.GasPrice.isSome → r.GasPrice = o.GasPrice) ∧
    (o.GasPrice = none → ∀ p, w.gasPrice = .ok p → r.GasPrice = some p) := by
  unfold fillGasPrice at h
  cases hn : o.GasPrice <;> rw [hn] at h
  · cases hp : w.gasPrice <;> rw [hp] at h <;> simp_all
    exact ⟨by simp [← h], by simp [← h], by simp [← h], by simp [← h], by simp [← h]⟩
  · simp_all

theorem fillTipFee_frame (o : TxOpts) :
    (fillTipFee o).Nonce = o.Nonce ∧ (fillTipFee o).GasLimit = o.GasLimit ∧
    (fillTipFee o).GasPrice = o.GasPrice := by
  unfold fillTipFee
  split <;> simp

theorem fillTipFee_both_set (o : TxOpts) (h1 : o.GasTipCap.isSome)
    (h2 : o.GasFeeCap.isSome) : fillTipFee o = o := by
  unfold fillTipFee
  cases htc : o.GasTipCap <;> cases hfc : o.GasFeeCap <;> simp_all

theorem fillTipFee_one_unset (o : TxOpts)
    (h : o.GasTipCap = none ∨ o.GasFeeCap = none) :
    (fillTipFee o).GasTipCap = o.GasPrice ∧ (fillTipFee o).GasFeeCap = o.GasPrice := by
  unfold fillTipFee
  rcases h with h | h <;> simp [h]

theorem InitTxOpts_ok_decompose (w : Wallet) (toAddr : Nat) (amount : Option Int)
    (data : Bytes) (opts res : TxOpts)
    (h : InitTxOpts w toAddr amount data (some opts) = .ok res) :
    ∃ o1 o2 o3, fillNonce w opts = .ok o1 ∧
      fillGasLimit w toAddr amount data o1 = .ok o2 ∧
      fillGasPrice w o2 = .ok o3 ∧ res = fillTipFee o3 := by
  unfold InitTxOpts at h
  simp only [Option.getD_some] at h
  cases h1 : fillNonce w opts <;> simp [h1] at h
  case ok o1 =>
  cases h2 : fillGasLimit w toAddr amount data o1 <;> simp [h2] at h
  case ok o2 =>
  cases h3 : fillGasPrice w o2 <;> simp [h3] at h
  case ok o3 =>
  exact ⟨o1, o2, o3, rfl, h2, h3, h.symm⟩

/-- C1 counterexample: with every field but `GasFeeCap` caller-set (so no
RPC call is made at all), `InitTxOpts` overwrites the caller-set
`GasTipCap = 5` with the caller `GasPrice = 7`, refuting the claim
that every non-nil field keeps its value. -/
theorem InitTxOpts_overwrites_set_tip :
    ({ Nonce := some 1, GasLimit := some 21000, GasPrice := some 7,
       GasTipCap := some 5, GasFeeCap := none } : TxOpts).GasTipCap = some 5 ∧
    InitTxOpts ⟨0, .ok 3, fun _ _ _ => .ok 21000, .ok 9⟩ 0 none []
      (some { Nonce := some 1, GasLimit := some 21000, GasPrice := some 7,
              GasTipCap := some 5, GasFeeCap := none }) =
      .ok { Nonce := some 1, GasLimit := some 21000, GasPrice := some 7,
            GasTipCap := some 7, GasFeeCap := some 7 } ∧
    (some (7 : Int)) ≠ some 5 := by
  exact ⟨rfl, rfl, by decide⟩

/-- C1 (amended): on success `InitTxOpts` preserves every caller-set
`Nonce`, `GasLimit` and `GasPrice`; a caller-set `GasTipCap` and
`GasFeeCap` are preserved only when BOTH are set — when exactly one of
the two is set, the set one is overwritten with the resolved gas
price. -/
theorem InitTxOpts_preserves_set_fields
    (w : Wallet) (toAddr : Nat) (amount : Option Int) (data : Bytes)
    (opts res : TxOpts)
    (h : InitTxOpts w toAddr amount data (some opts) = .ok res) :
    (opts.Nonce.isSome → res.Nonce = opts.Nonce) ∧
    (opts.GasLimit.isSome → res.GasLimit = opts.GasLimit) ∧
    (opts.GasPrice.isSome → res.GasPrice = opts.GasPrice) ∧
    (opts.GasTipCap.isSome → opts.GasFeeCap.isSome →
      res.GasTipCap = opts.GasTipCap ∧ res.GasFeeCap = opts.GasFeeCap) := by
  obtain ⟨o1, o2, o3, h1, h2, h3, hres⟩ :=
    InitTxOpts_ok_decompose w toAddr amount data opts res h
  obtain ⟨n1gl, n1gp, n1tc, n1fc, n1n⟩ := fillNonce_ok w opts o1 h1
  obtain ⟨n2n, n2gp, n2tc, n2fc, n2gl⟩ := fillGasLimit_ok w toAddr amount data o1 o2 h2
  obtain ⟨n3n, n3gl, n3tc, n3fc, n3gp, _⟩ := fillGasPrice_ok w o2 o3 h3
  obtain ⟨f1, f2, f3⟩ := fillTipFee_frame o3
  refine ⟨?_, ?_, ?_, ?_⟩
  · intro hs
    rw [hres, f1, n3n, n2n, n1n hs]
  · intro hs
    rw [hres, f2, n3gl, n2gl, n1gl]
    · rw [n1gl]; exact hs
  · intro hs
    have e2 : o2.GasPrice = opts.GasPrice := by rw [n2gp, n1gp]
    have e3 : o3.GasPrice = opts.GasPrice := by
      rw [n3gp (by rw [e2]; exact hs), e2]
    rw [hres, f3, e3]
  · intro hs1 hs2
    have e3tc : o3.GasTipCap = opts.GasTipCap := by rw [n3tc, n2tc, n1tc]
    have e3fc : o3.GasFeeCap = opts.GasFeeCap := by rw [n3fc, n2fc, n1fc]
    have hfix : fillTipFee o3 = o3 :=
      fillTipFee_both_set o3 (by rw [e3tc]; exact hs1) (by rw [e3fc]; exact hs2)
    rw [hres, hfix]
    exact ⟨e3tc, e3fc⟩

/-- C1 witness: all caller-set fields but the nonce; the single RPC call
fills the nonce and every set field survives. -/
theorem InitTxOpts_preserves_set_fields_witness :
    InitTxOpts ⟨0, .ok 3, fun _ _ _ => .error "no rpc", .error "no rpc"⟩ 0 none []
      (some { Nonce := none, GasLimit := some 2, GasPrice := some 3,
              GasTipCap := some 4, GasFeeCap := some 5 }) =
      .ok { Nonce := some 3, GasLimit := some 2, GasPrice := some 3,
            GasTipCap := some 4, GasFeeCap := some 5 } ∧
    ({ Nonce := some 3, GasLimit := some 2, GasPrice := some 3,
       GasTipCap := some 4, GasFeeCap := some 5 } : TxOpts).GasLimit = some 2 ∧
    ({ Nonce := some 3, GasLimit := some 2, GasPrice := some 3,
       GasTipCap := some 4, GasFeeCap := some 5 } : TxOpts).GasTipCap = some 4 := by
  have h := InitTxOpts_preserves_set_fields
    ⟨0, .ok 3, fun _ _ _ => .error "no rpc", .error "no rpc"⟩ 0 none []
    { Nonce := none, GasLimit := some 2, GasPrice := some 3,
      GasTipCap := some 4, GasFeeCap := some 5 }
    { Nonce := some 3, GasLimit := some 2, GasPrice := some 3,
      GasTipCap := some 4, GasFeeCap := some 5 } rfl
  exact ⟨rfl, h.2.1 rfl, (h.2.2.2 rfl rfl).1⟩

/-- C2 counterexample: `GasFeeCap = 5` is caller-set and `GasTipCap` is
unset — so NOT both are unset — yet the defaulting block still runs and
replaces the caller fee cap with the gas price 7, refuting "applied
only when both are unset". -/
theorem InitTxOpts_defaults_when_one_unset :
    ({ Nonce := some 1, GasLimit := some 21000, GasPrice := some 7,
       GasTipCap := none, GasFeeCap := some 5 } : TxOpts).GasFeeCap = some 5 ∧
    InitTxOpts ⟨0, .ok 3, fun _ _ _ => .ok 21000, .ok 9⟩ 0 none []
      (some { Nonce := some 1, GasLimit := some 21000, GasPrice := some 7,
              GasTipCap := none, GasFeeCap := some 5 }) =
      .ok { Nonce := some 1, GasLimit := some 21000, GasPrice := some 7,
            GasTipCap := some 7, GasFeeCap := some 7 } ∧
    (some (7 : Int)) ≠ some 5 := by
  exact ⟨rfl, rfl, by decide⟩

/-- C2 (amended): when at least one of `GasTipCap`/`GasFeeCap` is unset
(in particular when both are), a successful `InitTxOpts` sets both to
the resolved gas price — the caller-supplied `GasPrice` if set,
otherwise the price fetched from the RPC collaborator; the defaulting
is applied whenever either of the two is unset, not only when both
are. -/
theorem InitTxOpts_tip_fee_defaulting
    (w : Wallet) (toAddr : Nat) (amount : Option Int) (data : Bytes)
    (opts res : TxOpts)
    (h : InitTxOpts w toAddr amount data (some opts) = .ok res)
    (hu : opts.GasTipCap = none ∨ opts.GasFeeCap = none) :
    res.GasTipCap = res.GasPrice ∧ res.GasFeeCap = res.GasPrice ∧
    (∀ p, opts.GasPrice = some p → res.GasPrice = some p) ∧
    (opts.GasPrice = none → ∀ p, w.gasPrice = .ok p → res.GasPrice = some p) := by
  obtain ⟨o1, o2, o3, h1, h2, h3, hres⟩ :=
    InitTxOpts_ok_decompose w toAddr amount data opts res h
  obtain ⟨n1gl, n1gp, n1tc, n1fc, n1n⟩ := fillNonce_ok w opts o1 h1
  obtain ⟨n2n, n2gp, n2tc, n2fc, n2gl⟩ := fillGasLimit_ok w toAddr amount data o1 o2 h2
  obtain ⟨n3n, n3gl, n3tc, n3fc, n3gp, n3fetch⟩ := fillGasPrice_ok w o2 o3 h3
  have hu3 : o3.GasTipCap = none ∨ o3.GasFeeCap = none := by
    rcases hu with hu | hu
    · exact Or.inl (by rw [n3tc, n2tc, n1tc, hu])
    · exact Or.inr (by rw [n3fc, n2fc, n1fc, hu])
  obtain ⟨htc, hfc⟩ := fillTipFee_one_unset o3 hu3
  have hgp : (fillTipFee o3).GasPrice = o3.GasPrice := (fillTipFee_frame o3).2.2
  refine ⟨by rw [hres, htc, hgp], by rw [hres, hfc, hgp], ?_, ?_⟩
  · intro p hp
    have e2 : o2.GasPrice = opts.GasPrice := by rw [n2gp, n1gp]
    have e3 : o3.GasPrice = some p := by
      rw [n3gp (by rw [e2, hp]; rfl), e2, hp]
    rw [hres, hgp, e3]
  · intro hnone p hok
    rw [hres, hgp]
    exact n3fetch (by rw [n2gp, n1gp, hnone]) p hok

/-- C2 witness: both caps unset and no caller gas price; the fetched
price 9 becomes both tip cap and fee cap. -/
theorem InitTxOpts_tip_fee_defaulting_witness :
    InitTxOpts ⟨0, .error "e", fun _ _ _ => .error "e", .ok 9⟩ 0 none []
      (some { Nonce := some 1, GasLimit := some 2, GasPrice := none,
              GasTipCap := none, GasFeeCap := none }) =
      .ok { Nonce := some 1, GasLimit := some 2, GasPrice := some 9,
            GasTipCap := some 9, GasFeeCap := some 9 } ∧
    ({ Nonce := some 1, GasLimit := some 2, GasPrice := some 9,
       GasTipCap := some 9, GasFeeCap := some 9 } : TxOpts).GasTipCap = some 9 ∧
    ({ Nonce := some 1, GasLimit := some 2, GasPrice := some 9,
       GasTipCap := some 9, GasFeeCap := some 9 } : TxOpts).GasPrice = some 9 := by
  have h := InitTxOpts_tip_fee_defaulting
    ⟨0, .error "e", fun _ _ _ => .error "e", .ok 9⟩ 0 none []
    { Nonce := some 1, GasLimit := some 2, GasPrice := none,
      GasTipCap := none, GasFeeCap := none }
    { Nonce := some 1, GasLimit := some 2, GasPrice := some 9,
      GasTipCap := some 9, GasFeeCap := some 9 } rfl (Or.inl rfl)
  refine ⟨rfl, ?_, h.2.2.2 rfl 9 rfl⟩
  rw [h.1]

/-- The go-ethereum crypto primitives used by `Ecrecover` (contract.go),
abstracted: the secp256k1 recovery primitive `crypto.Ecrecover` and
`crypto.Keccak256`. -/
structure CryptoPrims where
  ecrecover : Bytes → Bytes → Except Err Bytes
  keccak256 : Bytes → Bytes

/-- `Ecrecover` from contract.go: rejects a signature whose length is
not 65 or whose recovery byte `sig[64]` is outside {0,1,27,28};
subtracts 27 from a recovery byte ≥ 27 before invoking the curve
recovery primitive; on success derives the address as bytes 12..31 of
the Keccak-256 hash of the public key without its prefix byte
(`common.BytesToAddress(crypto.Keccak256(publicBy[1:])[12:])`). -/
def Ecrecover (c : CryptoPrims) (hash sig : Bytes) : Except Err (Bytes × Bytes) :=
  if sig.length ≠ 65 then
    .error "invalid length of signture"
  else if sig.getD 64 0 ≠ 27 ∧ sig.getD 64 0 ≠ 28 ∧ sig.getD 64 0 ≠ 1 ∧ sig.getD 64 0 ≠ 0 then
    .error "invalid signature type"
  else
    match c.ecrecover hash
        (if 27 ≤ sig.getD 64 0 then sig.set 64 (sig.getD 64 0 - 27) else sig) with
    | .error e => .error ("can not ecrecover: " ++ e)
    | .ok publicBy => .ok (publicBy, (c.keccak256 (publicBy.drop 1)).drop 12)

/-- C5: for every curve primitive behaviour, `Ecrecover` returns an
error (and hence no key or address) when the signature length is not 65
or the recovery byte is outside {0,1,27,28}; and when the recovery byte
is 27 or 28 the curve primitive is invoked on the signature with that
byte normalized down by 27. -/
theorem Ecrecover_spec (c : CryptoPrims) (hash sig : Bytes) :
    (sig.length ≠ 65 → Ecrecover c hash sig = .error "invalid length of signture") ∧
    (sig.getD 64 0 ≠ 27 → sig.getD 64 0 ≠ 28 → sig.getD 64 0 ≠ 1 → sig.getD 64 0 ≠ 0 →
      Ecrecover c hash sig = .error "invalid length of signture" ∨
      Ecrecover c hash sig = .error "invalid signature type") ∧
    (sig.length = 65 → (sig.getD 64 0 = 27 ∨ sig.getD 64 0 = 28) →
      Ecrecover c hash sig =
        match c.ecrecover hash (sig.set 64 (sig.getD 64 0 - 27)) with
        | .error e => .error ("can not ecrecover: " ++ e)
        | .ok publicBy => .ok (publicBy, (c.keccak256 (publicBy.drop 1)).drop 12)) := by
  refine ⟨?_, ?_, ?_⟩
  · intro h
    unfold Ecrecover
    rw [if_pos h]
  · intro h27 h28 h1 h0
    by_cases hl : sig.length = 65
    · right
      unfold Ecrecover
      rw [if_neg (not_not_intro hl), if_pos ⟨h27, h28, h1, h0⟩]
    · left
      unfold Ecrecover
      rw [if_pos hl]
  · intro hl hv
    unfold Ecrecover
    rw [if_neg (not_not_intro hl)]
    rw [if_neg (by rcases hv with hv | hv <;> (rw [hv]; decide))]
    rw [if_pos (by rcases hv with hv | hv <;> omega)]

/-- C5 witness: the theorem applied at a 65-byte signature with recovery
byte 27 (normalized to 0 and passed through, with the toy primitives
echoing their input), and at a too-short signature. -/
theorem Ecrecover_spec_witness :
    Ecrecover ⟨fun _ s => .ok s, fun b => b⟩ [0] (List.replicate 64 1 ++ [27]) =
      .ok (List.replicate 64 1 ++ [0], List.replicate 51 1 ++ [0]) ∧
    Ecrecover ⟨fun _ s => .ok s, fun b => b⟩ [0] [1, 2] =
      .error "invalid length of signture" := by
  constructor
  · have h := (Ecrecover_spec ⟨fun _ s => .ok s, fun b => b⟩ [0]
      (List.replicate 64 1 ++ [27])).2.2 (by decide) (Or.inl (by decide))
    rw [h]
    rfl
  · exact (Ecrecover_spec ⟨fun _ s => .ok s, fun b => b⟩ [0] [1, 2]).1 (by decide)

/-- The go-ethereum primitives used by `SignMsg` (signer.go) and the
signer address derivation, abstracted: `crypto.Sign`,
`accounts.TextHash`, `crypto.Ecrecover`, `crypto.Keccak256` and the
uncompressed public key bytes of a private key
(`crypto.FromECDSAPub`). -/
structure SignModel where
  sign      : Nat → Bytes → Bytes
  textHash  : Bytes → Bytes
  ecrecover : Bytes → Bytes → Except Err Bytes
  keccak256 : Bytes → Bytes
  pubkeyOf  : Nat → Bytes

/-- `Signer.SignMsg` from signer.go: sign `accounts.TextHash(msg)` and
add 27 to the recovery byte `sig[64]`. -/
def SignMsg (m : SignModel) (key : Nat) (msg : Bytes) : Bytes :=
  let sig := m.sign key (m.textHash msg)
  sig.set 64 (sig.getD 64 0 + 27)

/-- `crypto.PubkeyToAddress` as used for `Signer.Address` (signer.go):
last 20 bytes of the Keccak-256 hash of the uncompressed public key
without its prefix byte. -/
def pubkeyToAddress (m : SignModel) (key : Nat) : Bytes :=
  (m.keccak256 ((m.pubkeyOf key).drop 1)).drop 12

theorem getD_set_self (l : List Nat) (i x : Nat) (h : i < l.length) :
    (l.set i x).getD i 0 = x := by
  simp [List.getD, List.getElem?_set_self h]

theorem set_getD_self (l : List Nat) (i : Nat) (h : i < l.length) :
    l.set i (l.getD i 0) = l := by
  apply List.ext_getElem?
  intro n
  rcases eq_or_ne i n with rfl | hne
  · rw [List.getElem?_set_self h, List.getElem?_eq_getElem h,
      List.getD_eq_getElem _ _ h]
  · rw [List.getElem?_set_ne hne]

/-- C6: sign/recover consistency through the repository wiring.  The
curve primitives are abstracted and assumed to satisfy the go-ethereum
library contract — `crypto.Sign` yields 65 bytes whose recovery byte is
0 or 1, and `crypto.Ecrecover` inverts it to the signer public key.
Then recovering with the repository `Ecrecover` from the
personal-message hash and the `SignMsg` signature (recovery byte lifted
to the 27/28 convention) yields exactly the signer public key and the
signer address. -/
theorem sign_recover_consistency (m : SignModel) (key : Nat) (msg : Bytes)
    (hlen : ∀ k h, (m.sign k h).length = 65)
    (hparity : ∀ k h, (m.sign k h).getD 64 0 = 0 ∨ (m.sign k h).getD 64 0 = 1)
    (hrec : ∀ k h, m.ecrecover h (m.sign k h) = .ok (m.pubkeyOf k)) :
    Ecrecover ⟨m.ecrecover, m.keccak256⟩ (m.textHash msg) (SignMsg m key msg) =
      .ok (m.pubkeyOf key, pubkeyToAddress m key) := by
  have h64 : (64 : Nat) < (m.sign key (m.textHash msg)).length := by
    rw [hlen]
    omega
  set hash := m.textHash msg with hhash
  set sig := m.sign key hash with hsig
  set v := sig.getD 64 0 with hv
  have hsm : SignMsg m key msg = sig.set 64 (v + 27) := rfl
  have hlen2 : (sig.set 64 (v + 27)).length = 65 := by
    rw [List.length_set, hlen]
  have hget2 : (sig.set 64 (v + 27)).getD 64 0 = v + 27 :=
    getD_set_self sig 64 (v + 27) h64
  have hnorm : (sig.set 64 (v + 27)).set 64 (v + 27 - 27) = sig := by
    rw [List.set_set, Nat.add_sub_cancel, hv, set_getD_self sig 64 h64]
  have hv01 : v = 0 ∨ v = 1 := hparity key hash
  rw [hsm]
  unfold Ecrecover
  rw [if_neg (not_not_intro hlen2)]
  simp only [hget2]
  rw [if_neg (by rcases hv01 with h0 | h0 <;> rw [h0] <;> decide)]
  rw [if_pos (Nat.le_add_left 27 v), hnorm, hrec key hash]
  rfl

/-- A concrete toy instantiation of the go-ethereum primitive contract,
used only to witness that the hypotheses of the sign/recover theorem
are satisfiable. -/
def toySigner : SignModel where
  sign      := fun k _ => List.replicate 64 k ++ [0]
  textHash  := fun msg => msg
  ecrecover := fun _ s => .ok (List.replicate 65 (s.getD 0 0))
  keccak256 := fun b => b
  pubkeyOf  := fun k => List.replicate 65 k

/-- C6 witness: the theorem applied to the toy primitives at key 3 and
message [1,2], with the three library-contract hypotheses discharged. -/
theorem sign_recover_consistency_witness :
    Ecrecover ⟨toySigner.ecrecover, toySigner.keccak256⟩ (toySigner.textHash [1, 2])
      (SignMsg toySigner 3 [1, 2]) = .ok (List.replicate 65 3, List.replicate 52 3) := by
  have h := sign_recover_consistency toySigner 3 [1, 2]
    (by intro k h; simp [toySigner])
    (by intro k h
        left
        show (List.replicate 64 k ++ [0]).getD 64 0 = 0
        rw [List.getD_append_right _ _ _ _ (by simp)]
        simp [List.getD])
    (by intro k h
        have hk : (List.replicate 64 k ++ [0]).getD 0 0 = k := by
          rw [List.getD_append _ _ _ _ (by simp)]
          rw [List.getD_eq_getElem _ _ (by simp)]
          simp
        simp only [toySigner]
        rw [hk])
  simpa [pubkeyToAddress, toySigner] using h

/-- Field maps of a typed-data document (the results of
`typedData.Domain.Map()` and `typedData.Message` in contract.go); Go
`interface{}` values are abstracted as opaque naturals. -/
abbrev FieldMap := List (String × Nat)

/-- `apitypes.TypedData` as consumed by `EIP712Hash` (contract.go): the
primary type name, the domain field map and the message field map. -/
structure TypedData where
  PrimaryType : String
  DomainMap   : FieldMap
  Message     : FieldMap

/-- `EIP712Hash` from contract.go, parameterized over the external
go-ethereum `TypedData.HashStruct` primitive and `crypto.Keccak256`:
hash the domain under type name "EIP712Domain" and the message under
the document primary type, propagating either failure; on success hash
the bytes `0x19 || 0x01 || domainSeparator || typedDataHash` (the
source `fmt.Sprintf("\x19\x01%s%s", ...)` concatenates the raw
bytes). -/
def EIP712Hash (keccak256 : Bytes → Bytes)
    (hashStruct : String → FieldMap → Except Err Bytes)
    (td : TypedData) : Except Err Bytes :=
  match hashStruct "EIP712Domain" td.DomainMap with
  | .error e => .error e
  | .ok domainSeparator =>
    match hashStruct td.PrimaryType td.Message with
    | .error e => .error e
    | .ok typedDataHash =>
      .ok (keccak256 (0x19 :: 0x01 :: (domainSeparator ++ typedDataHash)))

/-- C7: when both struct hashes succeed, `EIP712Hash` is exactly the
Keccak-256 hash of `0x19 || 0x01 || domainSeparator || messageHash`,
where the domain separator is the struct hash of "EIP712Domain" over
the domain fields and the message hash is the struct hash of the
primary type over the message fields; when either struct hash fails,
that error is returned and no hash. -/
theorem EIP712Hash_spec (keccak256 : Bytes → Bytes)
    (hashStruct : String → FieldMap → Except Err Bytes) (td : TypedData) :
    (∀ d m, hashStruct "EIP712Domain" td.DomainMap = .ok d →
      hashStruct td.PrimaryType td.Message = .ok m →
      EIP712Hash keccak256 hashStruct td =
        .ok (keccak256 (0x19 :: 0x01 :: (d ++ m)))) ∧
    (∀ e, hashStruct "EIP712Domain" td.DomainMap = .error e →
      EIP712Hash keccak256 hashStruct td = .error e) ∧
    (∀ d e, hashStruct "EIP712Domain" td.DomainMap = .ok d →
      hashStruct td.PrimaryType td.Message = .error e →
      EIP712Hash keccak256 hashStruct td = .error e) := by
  refine ⟨?_, ?_, ?_⟩
  · intro d m hd hm
    unfold EIP712Hash
    rw [hd, hm]
  · intro e hd
    unfold EIP712Hash
    rw [hd]
  · intro d e hd hm
    unfold EIP712Hash
    rw [hd, hm]

/-- C7 witness: the theorem applied to toy struct hashers, one always
succeeding and one failing on the message type. -/
theorem EIP712Hash_spec_witness :
    EIP712Hash (fun b => b)
      (fun name _ => if name = "EIP712Domain" then .ok [1] else .ok [2])
      ⟨"Mail", [], []⟩ = .ok [0x19, 0x01, 1, 2] ∧
    EIP712Hash (fun b => b)
      (fun name _ => if name = "EIP712Domain" then .ok [1] else .error "schema")
      ⟨"Mail", [], []⟩ = .error "schema" := by
  constructor
  · exact (EIP712Hash_spec (fun b => b)
      (fun name _ => if name = "EIP712Domain" then .ok [1] else .ok [2])
      ⟨"Mail", [], []⟩).1 [1] [2] rfl rfl
  · exact (EIP712Hash_spec (fun b => b)
      (fun name _ => if name = "EIP712Domain" then .ok [1] else .error "schema")
      ⟨"Mail", [], []⟩).2.2 [1] "schema" rfl rfl

/-- A parsed ABI method (go-ethereum `abi.Method` as used in
contract.go): name, 4-byte selector and an abstract
`Inputs.UnpackIntoMap` behaviour mapping argument bytes to a
name-value map. -/
structure AbiMethod where
  name         : String
  id           : Bytes
  unpackInputs : Bytes → Except Err (List (String × Nat))

/-- The parsed ABI (go-ethereum `abi.ABI`): the declared methods. -/
structure ABI where
  methods : List AbiMethod

/-- go-ethereum `ABI.MethodById` as called by `DecodeData`
(contract.go): the first declared method whose selector equals the
first 4 bytes of the given selector data, or an error when none
matches. -/
def ABI.MethodById (a : ABI) (sigdata : Bytes) : Except Err AbiMethod :=
  match a.methods.find? (fun m => m.id == sigdata.take 4) with
  | some m => .ok m
  | none => .error "no method with id"

/-- `Contract.DecodeData` from contract.go: fewer than 4 bytes is the
too-short error; otherwise the method is looked up by the selector
`data[:4]`, and on a match the remaining bytes `data[4:]` are unpacked
into the parameter map, returning the method name. -/
def DecodeData (a : ABI) (data : Bytes) :
    Except Err (String × List (String × Nat)) :=
  if data.length < 4 then .error "data is too short"
  else
    match a.MethodById (data.take 4) with
    | .error e => .error e
    | .ok method =>
      match method.unpackInputs (data.drop 4) with
      | .error e => .error e
      | .ok params => .ok (method.name, params)

/-- C8: `DecodeData` fails with the too-short error below 4 bytes,
fails when no declared method has the leading 4-byte selector, and on a
selector match unpacks the remaining bytes against that method's
declared parameters, returning its name. -/
theorem DecodeData_spec (a : ABI) (data : Bytes) :
    (data.length < 4 → DecodeData a data = .error "data is too short") ∧
    (4 ≤ data.length →
      a.methods.find? (fun m => m.id == data.take 4) = none →
      DecodeData a data = .error "no method with id") ∧
    (∀ m, 4 ≤ data.length →
      a.methods.find? (fun m2 => m2.id == data.take 4) = some m →
      DecodeData a data =
        match m.unpackInputs (data.drop 4) with
        | .error e => .error e
        | .ok params => .ok (m.name, params)) := by
  refine ⟨?_, ?_, ?_⟩
  · intro h
    simp [DecodeData, h]
  · intro h4 hf
    unfold DecodeData ABI.MethodById
    rw [if_neg (by omega)]
    simp only [List.take_take, Nat.min_self]
    rw [hf]
  · intro m h4 hf
    unfold DecodeData ABI.MethodById
    rw [if_neg (by omega)]
    simp only [List.take_take, Nat.min_self]
    rw [hf]

/-- C8 witness: the theorem applied to a one-method ABI, at a matching
payload, an unknown selector and a too-short payload. -/
theorem DecodeData_spec_witness :
    DecodeData ⟨[⟨"transfer", [1, 2, 3, 4], fun bs => .ok [("dst", bs.length)]⟩]⟩
      [1, 2, 3, 4, 9, 9] = .ok ("transfer", [("dst", 2)]) ∧
    DecodeData ⟨[⟨"transfer", [1, 2, 3, 4], fun bs => .ok [("dst", bs.length)]⟩]⟩
      [9, 9, 9, 9] = .error "no method with id" ∧
    DecodeData ⟨[⟨"transfer", [1, 2, 3, 4], fun bs => .ok [("dst", bs.length)]⟩]⟩
      [1, 2] = .error "data is too short" := by
  refine ⟨?_, ?_, ?_⟩
  · have h := (DecodeData_spec
      ⟨[⟨"transfer", [1, 2, 3, 4], fun bs => .ok [("dst", bs.length)]⟩]⟩
      [1, 2, 3, 4, 9, 9]).2.2
      ⟨"transfer", [1, 2, 3, 4], fun bs => .ok [("dst", bs.length)]⟩
      (by decide) (by rfl)
    rw [h]
    rfl
  · exact (DecodeData_spec
      ⟨[⟨"transfer", [1, 2, 3, 4], fun bs => .ok [("dst", bs.length)]⟩]⟩
      [9, 9, 9, 9]).2.1 (by decide) (by rfl)
  · exact (DecodeData_spec
      ⟨[⟨"transfer", [1, 2, 3, 4], fun bs => .ok [("dst", bs.length)]⟩]⟩
      [1, 2]).1 (by decide)

/-- The three runtime shapes contract.go `DecodeFromMethod` accepts for
its `output any` argument: a hex string, a byte slice, or anything
else. -/
inductive AbiOutput where
  | str   : String → AbiOutput
  | bytes : Bytes → AbiOutput
  | other : AbiOutput

/-- One hex digit (`encoding/hex`). -/
def hexVal (c : Char) : Option Nat :=
  if '0' ≤ c ∧ c ≤ '9' then some (c.toNat - '0'.toNat)
  else if 'a' ≤ c ∧ c ≤ 'f' then some (c.toNat - 'a'.toNat + 10)
  else if 'A' ≤ c ∧ c ≤ 'F' then some (c.toNat - 'A'.toNat + 10)
  else none

/-- `hex.DecodeString` digit pairs: odd length or a non-digit fails. -/
def hexPairs : List Char → Option Bytes
  | [] => some []
  | [_] => none
  | c1 :: c2 :: rest =>
    match hexVal c1, hexVal c2, hexPairs rest with
    | some hi, some lo, some tail => some ((hi * 16 + lo) :: tail)
    | _, _, _ => none

/-- `hexutil.Decode` as called by `DecodeFromMethod` (contract.go): a
nonempty string with a 0x/0X prefix whose remainder decodes as hex
pairs. -/
def hexutilDecode (s : String) : Except Err Bytes :=
  if s.toList = [] then .error "empty hex string"
  else if ¬ (s.toList.take 2 = ['0', 'x'] ∨ s.toList.take 2 = ['0', 'X']) then
    .error "hex string without 0x prefix"
  else
    match hexPairs (s.toList.drop 2) with
    | some bs => .ok bs
    | none => .error "invalid hex string"

/-- The output-decoding collaborators of `DecodeFromMethod`
(go-ethereum `ABI.Unpack` and `ABI.UnpackIntoInterface`), abstracted
per method name and data. -/
structure AbiDecoder where
  unpack     : String → Bytes → Except Err (List Nat)
  unpackInto : Nat → String → Bytes → Except Err Unit

/-- The `data` extraction step of `DecodeFromMethod` (contract.go): a
string output is hex-decoded, a byte-slice output is used as is, any
other runtime type is rejected with the invalid-type error. -/
def decodeOutputData (output : AbiOutput) : Except Err Bytes :=
  match output with
  | .str s => hexutilDecode s
  | .bytes b => .ok b
  | .other => .error "output 无效的类型"

/-- `Contract.DecodeFromMethod` from contract.go: a nil `results`
pointer is replaced by a new empty slice; zero data bytes yield the
empty value list and no error; otherwise an empty `results` is filled
by `ABI.Unpack` and a nonempty one is decoded in place into its first
element by `ABI.UnpackIntoInterface` (returning the untouched values on
success).  The returned list models the final `*results`. -/
def DecodeFromMethod (d : AbiDecoder) (method : String) (output : AbiOutput)
    (results : Option (List Nat)) : Except Err (List Nat) :=
  match decodeOutputData output with
  | .error e => .error e
  | .ok data =>
    if data.length = 0 then .ok []
    else if (results.getD []).length = 0 then d.unpack method data
    else
      match d.unpackInto ((results.getD []).getD 0 0) method data with
      | .error e => .error e
      | .ok _ => .ok (results.getD [])

/-- C9: for every method and decoder behaviour, an output whose payload
decodes to zero bytes makes `DecodeFromMethod` succeed with the empty
value list; and an error can arise only from an output that is neither
a (valid hex) string nor a byte slice, or from a nonempty payload
(whose unpacking against the declared output types failed). -/
theorem DecodeFromMethod_spec (d : AbiDecoder) (method : String)
    (output : AbiOutput) (results : Option (List Nat)) :
    (decodeOutputData output = .ok [] →
      DecodeFromMethod d method output results = .ok []) ∧
    (∀ e, DecodeFromMethod d method output results = .error e →
      (output = .other ∨ (∃ s, output = .str s ∧ hexutilDecode s = .error e)) ∨
      (∃ data, decodeOutputData output = .ok data ∧ data ≠ [])) := by
  constructor
  · intro h
    simp [DecodeFromMethod, h]
  · intro e he
    cases hout : decodeOutputData output with
    | error e2 =>
      left
      cases output with
      | str s =>
        refine Or.inr ⟨s, rfl, ?_⟩
        simp only [DecodeFromMethod, hout] at he
        have he2 : e2 = e := by
          cases he
          rfl
        rw [show hexutilDecode s = decodeOutputData (AbiOutput.str s) from rfl,
          hout, he2]
      | bytes b => simp [decodeOutputData] at hout
      | other => exact Or.inl rfl
    | ok data =>
      right
      refine ⟨data, rfl, ?_⟩
      intro hnil
      subst hnil
      simp [DecodeFromMethod, hout] at he

/-- C9 witness: the theorem applied at the hex string "0x" (zero bytes
of payload) and at an output of invalid runtime type. -/
theorem DecodeFromMethod_spec_witness :
    DecodeFromMethod ⟨fun _ _ => .ok [7], fun _ _ _ => .ok ()⟩ "balanceOf"
      (.str "0x") none = .ok [] ∧
    ((AbiOutput.other = AbiOutput.other ∨
      (∃ s, AbiOutput.other = AbiOutput.str s ∧
        hexutilDecode s = .error "output 无效的类型")) ∨
      (∃ data, decodeOutputData AbiOutput.other = .ok data ∧ data ≠ [])) := by
  constructor
  · exact (DecodeFromMethod_spec ⟨fun _ _ => .ok [7], fun _ _ _ => .ok ()⟩
      "balanceOf" (.str "0x") none).1 rfl
  · exact (DecodeFromMethod_spec ⟨fun _ _ => .ok [7], fun _ _ _ => .ok ()⟩
      "balanceOf" .other none).2 "output 无效的类型" rfl

/-- `Contract` as used by `ExecMethod` (contract.go): the contract
address, the optional wallet (only its nil-ness matters to
`ExecMethod`), the `ABI.Pack` behaviour behind `EncodeData`, and the
wallet `SendTx` behaviour (recipient, native-coin amount, call data,
options). -/
structure Contract where
  address    : Nat
  wallet     : Option Unit
  encodeData : String → List Nat → Except Err Bytes
  sendTx     : Nat → Int → Bytes → Option TxOpts → Except Err String

/-- `Contract.ExecMethod` from contract.go, instrumented with the list
of `SendTx` invocations it performs (recipient, native-coin amount,
call data): a nil wallet fails before encoding and before any send;
otherwise the encoded call data is submitted to the contract address
via `SendTx` with amount `big.NewInt(0)`. -/
def ExecMethod (c : Contract) (methodName : String) (opts : Option TxOpts)
    (args : List Nat) : Except Err String × List (Nat × Int × Bytes) :=
  match c.wallet with
  | none => (.error "wallet is nil", [])
  | some _ =>
    match c.encodeData methodName args with
    | .error e => (.error e, [])
    | .ok data => (c.sendTx c.address 0 data opts, [(c.address, 0, data)])

/-- C10: every `SendTx` invocation `ExecMethod` performs carries a
native-coin amount of exactly zero; a contract constructed without a
wallet makes `ExecMethod` fail with no `SendTx` invocation at all; and
on a successful encode the result is exactly `SendTx` at amount 0. -/
theorem ExecMethod_spec (c : Contract) (methodName : String)
    (opts : Option TxOpts) (args : List Nat) :
    (∀ call ∈ (ExecMethod c methodName opts args).2, call.2.1 = 0) ∧
    (c.wallet = none →
      ExecMethod c methodName opts args = (.error "wallet is nil", [])) ∧
    (∀ data, c.wallet.isSome → c.encodeData methodName args = .ok data →
      ExecMethod c methodName opts args =
        (c.sendTx c.address 0 data opts, [(c.address, 0, data)])) := by
  refine ⟨?_, ?_, ?_⟩
  · intro call hcall
    cases hw : c.wallet <;> simp [ExecMethod, hw] at hcall
    · cases he : c.encodeData methodName args <;> simp [he] at hcall
      rw [hcall]
  · intro hw
    simp [ExecMethod, hw]
  · intro data hw he
    cases hwv : c.wallet with
    | none => rw [hwv] at hw; simp at hw
    | some u => simp [ExecMethod, hwv, he]

/-- C10 witness: the theorem applied at a contract with a wallet (the
send is recorded with amount 0) and at one without (error, no send). -/
theorem ExecMethod_spec_witness :
    ExecMethod ⟨5, some (), fun _ _ => .ok [1, 2], fun _ _ _ _ => .ok "0xabc"⟩
      "transfer" none [] = (.ok "0xabc", [(5, 0, [1, 2])]) ∧
    ((0 : Int) = 0) ∧
    ExecMethod ⟨5, none, fun _ _ => .ok [1, 2], fun _ _ _ _ => .ok "0xabc"⟩
      "transfer" none [] = (.error "wallet is nil", []) := by
  refine ⟨?_, ?_, ?_⟩
  · exact (ExecMethod_spec ⟨5, some (), fun _ _ => .ok [1, 2],
      fun _ _ _ _ => .ok "0xabc"⟩ "transfer" none []).2.2 [1, 2] rfl rfl
  · exact (ExecMethod_spec ⟨5, some (), fun _ _ => .ok [1, 2],
      fun _ _ _ _ => .ok "0xabc"⟩ "transfer" none []).1 (5, 0, [1, 2]) (by simp [ExecMethod])
  · exact (ExecMethod_spec ⟨5, none, fun _ _ => .ok [1, 2],
      fun _ _ _ _ => .ok "0xabc"⟩ "transfer" none []).2.1 rfl

end Goether
